import Mathlib

/-!
Shallow embedding of the reconstruction pipeline of the
Construction-of-3D-model-from-2D-image repository:
`torchy/model/HGPIFuNet.py` (occupancy query and finite-difference
normals), `apps/recon_mrv2.py` (mesh generation, option handling,
test loop) and `apps/submit_eval.py` (job bounds).

Points and calibration matrices are modelled over `ℚ` (the tensor
framework's floats, with exact arithmetic); network outputs, which go
through a sigmoid, live in `ℝ`.
-/

namespace PIFu

/-- Modelled from the spec: the Coordinate/Projection module "maps 3D world
points to camera-projected 2D+depth coordinates using calibration
matrices" (the `projection` method lives in `BasePIFuNet.py`, which is not
part of the sources; a `[3,4]` calibration matrix acts affinely on a
point). -/
def projection (calib : Fin 3 → Fin 4 → ℚ) (p : Fin 3 → ℚ) : Fin 3 → ℚ :=
  fun i => calib i 0 * p 0 + calib i 1 * p 1 + calib i 2 * p 2 + calib i 3

/-- Source `HGPIFuNet.query` lines 84-85: `in_bb = (xyz >= -1) & (xyz <= 1)`
followed by the conjunction over the three coordinates. -/
def in_bb (xyz : Fin 3 → ℚ) : Bool :=
  decide (-1 ≤ xyz 0 ∧ xyz 0 ≤ 1) &&
  decide (-1 ≤ xyz 1 ∧ xyz 1 ≤ 1) &&
  decide (-1 ≤ xyz 2 ∧ xyz 2 ≤ 1)

/-- PyTorch `nn.Sigmoid`, the `last_op` of the MLP built in `HGPIFuNet.__init__`
line 36. -/
noncomputable def sigmoid (x : ℝ) : ℝ := 1 / (1 + Real.exp (-x))

/-- Source `HGPIFuNet.query` lines 80-105 at evaluation time (after `filter`,
`im_feat_list` holds a single stack, lines 64-65).  The composite of
feature indexing, spatial encoding and the MLP layers before the final
sigmoid is the abstract `core : (Fin 3 → ℚ) → ℝ`, a function of the
projected coordinates `xyz` (the MLP's input `point_local_feat` is built
from `xy` and the spatial encoding of `xyz` only).  Line 102:
`pred = in_bb * self.mlp(point_local_feat)`; line 105 stores it in
`self.preds`. -/
noncomputable def queryPred (core : (Fin 3 → ℚ) → ℝ)
    (calib : Fin 3 → Fin 4 → ℚ) (p : Fin 3 → ℚ) : ℝ :=
  (if in_bb (projection calib p) then (1 : ℝ) else 0) *
    sigmoid (core (projection calib p))

lemma sigmoid_pos (x : ℝ) : 0 < sigmoid x := by
  unfold sigmoid
  positivity

lemma sigmoid_le_one (x : ℝ) : sigmoid x ≤ 1 := by
  unfold sigmoid
  rw [div_le_one (by positivity)]
  nlinarith [Real.exp_pos (-x)]

/-- Source `HGPIFuNet.calc_normal` lines 119-124: the perturbed points
`pdx`, `pdy`, `pdz`; `pd p ax δ` adds `δ` to coordinate `ax` of `p`. -/
def pd (p : Fin 3 → ℚ) (ax : Fin 3) (δ : ℚ) : Fin 3 → ℚ :=
  fun i => if i = ax then p i + δ else p i

/-- The occupancy network output used by `calc_normal` line 142:
`pred = self.mlp(point_local_feat)`, the sigmoid-terminated MLP on the
features of the projected point (no bounding-box mask here, unlike
`query`). -/
noncomputable def predAt (core : (Fin 3 → ℚ) → ℝ)
    (calib : Fin 3 → Fin 4 → ℚ) (q : Fin 3 → ℚ) : ℝ :=
  sigmoid (core (projection calib q))

/-- Source `calc_normal` lines 147-151: `nml = -cat([dfdx,dfdy,dfdz])` with
`dfdi = f(p + δ eᵢ) - f(p)` (division by `δ` omitted, as in the source
comment). -/
noncomputable def nmlRaw (core : (Fin 3 → ℚ) → ℝ)
    (calib : Fin 3 → Fin 4 → ℚ) (p : Fin 3 → ℚ) (δ : ℚ) : Fin 3 → ℝ :=
  fun i => -(predAt core calib (pd p i δ) - predAt core calib p)

/-- Squared euclidean norm of a 3-vector. -/
noncomputable def normSq (v : Fin 3 → ℝ) : ℝ := v 0 ^ 2 + v 1 ^ 2 + v 2 ^ 2

/-- PyTorch `F.normalize(nml, dim=1, eps=1e-8)` (line 152): division by
`max ‖v‖₂ eps`. -/
noncomputable def fnormalize (v : Fin 3 → ℝ) (eps : ℝ) : Fin 3 → ℝ :=
  fun i => v i / max (Real.sqrt (normSq v)) eps

/-- The `eps = 1e-8` of `F.normalize` at line 152. -/
noncomputable def eps8 : ℝ := 1 / 10 ^ 8

/-- Source `HGPIFuNet.calc_normal` lines 107-154: the normal stored in
`self.nmls`. -/
noncomputable def calc_normal (core : (Fin 3 → ℚ) → ℝ)
    (calib : Fin 3 → Fin 4 → ℚ) (p : Fin 3 → ℚ) (δ : ℚ) : Fin 3 → ℝ :=
  fnormalize (nmlRaw core calib p δ) eps8

lemma normSq_nonneg (v : Fin 3 → ℝ) : 0 ≤ normSq v := by
  unfold normSq
  positivity

lemma normSq_div (v : Fin 3 → ℝ) (c : ℝ) (hc : c ≠ 0) :
    normSq (fun i => v i / c) = normSq v / c ^ 2 := by
  unfold normSq
  field_simp

lemma normSq_fnormalize_of_le (v : Fin 3 → ℝ) (eps : ℝ) (heps : 0 < eps)
    (h : eps ^ 2 ≤ normSq v) : normSq (fnormalize v eps) = 1 := by
  have hnn : 0 ≤ normSq v := normSq_nonneg v
  have hs2 : Real.sqrt (normSq v) ^ 2 = normSq v := Real.sq_sqrt hnn
  have hsn : 0 ≤ Real.sqrt (normSq v) := Real.sqrt_nonneg _
  have hes : eps ≤ Real.sqrt (normSq v) := by nlinarith
  have hspos : (0 : ℝ) < Real.sqrt (normSq v) := lt_of_lt_of_le heps hes
  have hfe : fnormalize v eps = fun i => v i / Real.sqrt (normSq v) := by
    unfold fnormalize
    rw [max_eq_left hes]
  have hpos : 0 < normSq v := lt_of_lt_of_le (pow_pos heps 2) h
  rw [hfe, normSq_div _ _ (ne_of_gt hspos), hs2, div_self (ne_of_gt hpos)]

lemma abs_fnormalize_le_one (v : Fin 3 → ℝ) (eps : ℝ) (heps : 0 < eps)
    (i : Fin 3) : |fnormalize v eps i| ≤ 1 := by
  have hvi : v i ^ 2 ≤ normSq v := by
    obtain ⟨iv, hilt⟩ := i
    interval_cases iv
    · show v 0 ^ 2 ≤ normSq v
      unfold normSq
      nlinarith [sq_nonneg (v 1), sq_nonneg (v 2)]
    · show v 1 ^ 2 ≤ normSq v
      unfold normSq
      nlinarith [sq_nonneg (v 0), sq_nonneg (v 2)]
    · show v 2 ^ 2 ≤ normSq v
      unfold normSq
      nlinarith [sq_nonneg (v 0), sq_nonneg (v 1)]
  have habs : |v i| ≤ Real.sqrt (normSq v) := by
    have hmono := Real.sqrt_le_sqrt hvi
    rwa [Real.sqrt_sq_eq_abs] at hmono
  have hmaxpos : 0 < max (Real.sqrt (normSq v)) eps := lt_max_of_lt_right heps
  show |v i / max (Real.sqrt (normSq v)) eps| ≤ 1
  rw [abs_div, abs_of_pos hmaxpos, div_le_one hmaxpos]
  exact le_trans habs (le_max_left _ _)

lemma sigmoid_zero : sigmoid 0 = 1 / 2 := by
  unfold sigmoid
  rw [neg_zero, Real.exp_zero]
  norm_num

lemma sigmoid_one_ge : (2 : ℝ) / 3 ≤ sigmoid 1 := by
  unfold sigmoid
  have he : (2 : ℝ) ≤ Real.exp 1 := by
    nlinarith [Real.add_one_le_exp (1 : ℝ)]
  have hpos : (0 : ℝ) < Real.exp 1 := Real.exp_pos 1
  have hinv : Real.exp 1 * (Real.exp 1)⁻¹ = 1 :=
    mul_inv_cancel₀ (ne_of_gt hpos)
  have hinvpos : (0 : ℝ) < (Real.exp 1)⁻¹ := inv_pos.mpr hpos
  have hu : Real.exp (-1) ≤ 1 / 2 := by
    rw [Real.exp_neg]
    nlinarith
  have hd : (0 : ℝ) < 1 + Real.exp (-1) := by positivity
  rw [div_le_div_iff (by norm_num) hd]
  nlinarith [Real.exp_pos (-1 : ℝ)]

/-- Witness inputs: the identity `[3,4]` calibration matrix and a core
that reads off the first projected coordinate. -/
def calibW : Fin 3 → Fin 4 → ℚ := fun i j => if (j : ℕ) = (i : ℕ) then 1 else 0

noncomputable def coreW : (Fin 3 → ℚ) → ℝ := fun q => ((q 0 : ℚ) : ℝ)

end PIFu

namespace ReconApp

/-- Glossary: "Occupancy field: scalar function over 3D space, >0.5
inside the subject, <0.5 outside" — classification of a field value `v`
against the iso-value `t`. -/
def inside (t v : ℚ) : Bool := t < v

/-- Modelled from the spec: the Octree-Accelerated Volume Sampler
"adaptively samples a 3D grid, using the Oracle sparsely and
interpolating/propagating known-occupancy regions to avoid evaluating
every voxel" (`reconstruction` lives in `lib/mesh_util.py`, which is not
among the sources).  One grid axis is modelled: coarse samples (even
indices) are always evaluated; a skipped sample whose two coarse
neighbours share an occupancy classification gets the interpolated value
without an Oracle call, otherwise the Oracle is evaluated on it too. -/
def octreeEval (f : ℕ → ℚ) (t : ℚ) : ℕ → ℚ := fun i =>
  if i % 2 = 0 then f i
  else if inside t (f (i - 1)) = inside t (f (i + 1)) then
    (f (i - 1) + f (i + 1)) / 2
  else f i

/-- Modelled from the spec: the Iso-surface Extractor ("marching cubes:
algorithm converting a sampled scalar field into a triangle mesh at a
given iso-value") on one grid axis — the mesh is the list of grid edges
`(i, i+1)` crossed by the iso-surface. -/
def marchCrossings (g : ℕ → ℚ) (t : ℚ) (n : ℕ) : List ℕ :=
  (List.range n).filter fun i => inside t (g i) != inside t (g (i + 1))

/-- Modelled from the spec: `reconstruction(net, cuda, calib, res, b_min,
b_max, thresh, use_octree=use_octree, num_samples=100000)` — sample the
field densely or through the octree according to `use_octree`, then
extract the iso-surface at `thresh`. -/
def reconstruction (f : ℕ → ℚ) (t : ℚ) (n : ℕ) (use_octree : Bool) :
    List ℕ :=
  marchCrossings (if use_octree then octreeEval f t else f) t n

/-- Source `gen_mesh` (recon_mrv2.py line 90) declares `thresh=0.5` and passes
it straight to `reconstruction` (lines 117-118); `recon` (line 230)
invokes `gen_mesh` without a `thresh` argument, so the default is
used. -/
def gen_mesh_recon (f : ℕ → ℚ) (n : ℕ) (use_octree : Bool)
    (thresh : ℚ := 1 / 2) : List ℕ :=
  reconstruction f thresh n use_octree

/-- Source `gen_mesh` line 125: `interval = 100000`, the colouring chunk
size. -/
def interval : ℕ := 100000

/-- Python slice-bound normalization for `a[l:r]` on an array of length
`n`: a negative `r` counts from the end of the array; the result is
clamped to `[0, n]`. -/
def sliceEnd (n : ℕ) (r : ℤ) : ℤ :=
  min (max (if r < 0 then r + n else r) 0) n

/-- Source `gen_mesh` lines 124-134: the chunked colouring loop
(`for i in range(len(color) // interval + 1)` with `left = i * interval`
and `right = -1` on the last chunk, `right = (i+1) * interval`
otherwise).  `colorCovered n j` holds when vertex index `j` of an
`n`-vertex mesh is written by `color[left:right] = nml.T` in some
chunk. -/
def colorCovered (n j : ℕ) : Bool :=
  (List.range (n / interval + 1)).any fun i =>
    decide ((i * interval : ℤ) ≤ j) &&
    decide ((j : ℤ) <
      sliceEnd n (if i = n / interval then -1 else ((i + 1) * interval : ℤ)))

/-- Modelled from the spec: the Mesh Writer "serializes vertices, faces,
and color to a text mesh format" (`save_obj_mesh_with_color` lives in
`lib/mesh_util.py`, which is not among the sources). -/
structure ObjFile where
  verts : List (Fin 3 → ℚ)
  faces : List (Fin 3 → ℕ)
  colors : List (Fin 3 → ℝ)

/-- Modelled from the spec: the writer records every vertex, face and
colour it is handed. -/
def save_obj_mesh_with_color (verts : List (Fin 3 → ℚ))
    (faces : List (Fin 3 → ℕ)) (colors : List (Fin 3 → ℝ)) : ObjFile :=
  ⟨verts, faces, colors⟩

/-- Source `gen_mesh` lines 124-134: the colour of vertex `j` — the
`calc_normal` output mapped by `* 0.5 + 0.5` (line 133) when some chunk
covers `j`, the `np.zeros` initialization (line 124) otherwise. -/
noncomputable def genMeshColor (core : (Fin 3 → ℚ) → ℝ)
    (calib : Fin 3 → Fin 4 → ℚ) (verts : ℕ → Fin 3 → ℚ) (δ : ℚ)
    (n j : ℕ) (i : Fin 3) : ℝ :=
  if colorCovered n j then
    PIFu.calc_normal core calib (verts j) δ i * (1 / 2) + 1 / 2
  else 0

/-- The full per-vertex colour array handed to the writer. -/
noncomputable def genMeshColors (core : (Fin 3 → ℚ) → ℝ)
    (calib : Fin 3 → Fin 4 → ℚ) (verts : ℕ → Fin 3 → ℚ) (δ : ℚ) (n : ℕ) :
    List (Fin 3 → ℝ) :=
  (List.range n).map fun j => fun i => genMeshColor core calib verts δ n j i

/-- Source `gen_mesh` line 136:
`save_obj_mesh_with_color(save_path, verts, faces, color)`. -/
noncomputable def gen_mesh_save (core : (Fin 3 → ℚ) → ℝ)
    (calib : Fin 3 → Fin 4 → ℚ) (δ : ℚ) (verts : List (Fin 3 → ℚ))
    (faces : List (Fin 3 → ℕ)) : ObjFile :=
  save_obj_mesh_with_color verts faces
    (genMeshColors core calib (fun j => verts.getD j (fun _ => 0)) δ
      verts.length)

/-- The `BaseOptions` fields that `recon` (recon_mrv2.py lines 159-170)
treats specially, plus representative fields that stay with the
checkpoint's options object. -/
structure Options where
  dataroot : String
  resolution : ℕ
  results_path : String
  loadSize : ℕ
  name : String
  netG : String
  num_views : ℕ

/-- The loaded checkpoint: `state_dict` may or may not contain the key
`'opt'`. -/
structure StateDict where
  opt : Option Options

/-- Source `recon` lines 159-170: when the checkpoint contains `'opt'`, the
command-line options object is replaced by the checkpoint's, with
`dataroot`, `resolution`, `results_path` and `loadSize` restored from the
command line; otherwise the command-line options are kept. -/
def recon_options (cli : Options) (sd : StateDict) : Options :=
  match sd.opt with
  | some ck =>
      { ck with
        dataroot := cli.dataroot
        resolution := cli.resolution
        results_path := cli.results_path
        loadSize := cli.loadSize }
  | none => cli

/-- A Python call that either returns a value or raises an exception. -/
inductive PyResult (α : Type) where
  | ok : α → PyResult α
  | exc : String → PyResult α
deriving DecidableEq

/-- Source `gen_mesh` lines 108-138: the whole pipeline (image dump,
`reconstruction`, normal estimation, colouring,
`save_obj_mesh_with_color`) runs inside `try`; `except Exception as e:
print(e)` turns a raise into a printed message and a normal return.  The
first component is what `gen_mesh` itself does (return or raise), the
second the printed message. -/
def gen_mesh_guard (body : PyResult Unit) : PyResult Unit × Option String :=
  match body with
  | .ok a => (.ok a, none)
  | .exc e => (.ok (), some e)

/-- Source `recon` lines 218-236: the test loop calls `gen_mesh` on every item
in turn; a failing item does not stop the loop. -/
def recon_loop (items : List (PyResult Unit)) :
    List (PyResult Unit × Option String) :=
  items.map gen_mesh_guard

/-- Source `recon` lines 212-213: `if start_id < 0: start_id = 0`. -/
def normStart (s : ℤ) : ℤ := if s < 0 then 0 else s

/-- Source `recon` lines 214-215: `if end_id < 0: end_id = len(test_dataset)`. -/
def normEnd (e : ℤ) (len : ℕ) : ℤ := if e < 0 then (len : ℤ) else e

/-- Source `recon` lines 222-228: `for i in tqdm(range(start_id, end_id))` with
`if i >= len(test_dataset): break` before the access `test_dataset[i]` —
the list of indices at which the dataset is actually subscripted.  The
indices ascend, so the `break` is the longest prefix with `i < len`. -/
def accessed_ids (s e : ℤ) (len : ℕ) : List ℕ :=
  (((List.range ((normEnd e len).toNat - (normStart s).toNat)).map
      fun k => k + (normStart s).toNat).takeWhile fun i => decide (i < len))

/-- Absence of sub-grid detail up to sample `n`: every skipped (odd)
sample whose coarse neighbours classify alike against `t` classifies
like them. -/
def noSubgrid (f : ℕ → ℚ) (t : ℚ) (n : ℕ) : Bool :=
  (List.range (n + 1)).all fun i =>
    decide ((i % 2 = 1 ∧ inside t (f (i - 1)) = inside t (f (i + 1))) →
      inside t (f i) = inside t (f (i - 1)))

lemma inside_avg (t a b : ℚ) (hab : inside t a = inside t b) :
    inside t ((a + b) / 2) = inside t a := by
  unfold inside at hab ⊢
  have hiff : (t < a) ↔ (t < b) := decide_eq_decide.mp hab
  apply decide_eq_decide.mpr
  constructor
  · intro havg
    by_contra hna
    have hnb : ¬t < b := fun hb => hna (hiff.mpr hb)
    push_neg at hna hnb
    linarith
  · intro ha
    have hb := hiff.mp ha
    linarith

end ReconApp

/-- C1: a point whose projection has a coordinate strictly outside the
canonical `[-1,1]` cube gets a stored occupancy prediction of exactly `0`
from `query`, hence lies strictly below the `0.5` iso-value. -/
theorem C1_out_of_cube_pred_zero (core : (Fin 3 → ℚ) → ℝ)
    (calib : Fin 3 → Fin 4 → ℚ) (p : Fin 3 → ℚ) (i : Fin 3)
    (h : PIFu.projection calib p i < -1 ∨ 1 < PIFu.projection calib p i) :
    PIFu.queryPred core calib p = 0 ∧
      PIFu.queryPred core calib p < 1 / 2 := by
  have hbb : PIFu.in_bb (PIFu.projection calib p) = false := by
    cases hb : PIFu.in_bb (PIFu.projection calib p) with
    | false => rfl
    | true =>
      exfalso
      unfold PIFu.in_bb at hb
      simp only [Bool.and_eq_true, decide_eq_true_eq] at hb
      obtain ⟨⟨⟨h00, h01⟩, h10, h11⟩, h20, h21⟩ := hb
      have h3 : ∀ j : Fin 3, -1 ≤ PIFu.projection calib p j ∧
          PIFu.projection calib p j ≤ 1 := by
        intro j
        fin_cases j
        · exact ⟨h00, h01⟩
        · exact ⟨h10, h11⟩
        · exact ⟨h20, h21⟩
      rcases h with h | h
      · exact absurd (h3 i).1 (by linarith)
      · exact absurd (h3 i).2 (by linarith)
  constructor
  · unfold PIFu.queryPred
    rw [hbb]
    simp
  · unfold PIFu.queryPred
    rw [hbb]
    norm_num

/-- Witness for C1: with the all-ones calibration, the all-ones point
projects to `(4,4,4)`, outside the cube, and the stored prediction is
exactly `0`. -/
theorem C1_witness :
    (1 < PIFu.projection (fun _ _ => 1) (fun _ => 1) 0) ∧
    PIFu.queryPred (fun _ => 0) (fun _ _ => 1) (fun _ => 1) = 0 := by
  have h : (1 : ℚ) < PIFu.projection (fun _ _ => 1) (fun _ => 1) 0 := by
    unfold PIFu.projection
    norm_num
  exact ⟨h, (C1_out_of_cube_pred_zero (fun _ => 0) _ _ 0 (Or.inr h)).1⟩

/-- C4: every occupancy value stored by `query` lies in `[0,1]`: it is the
output of the sigmoid-terminated MLP times the 0/1 in-bounding-box
indicator. -/
theorem C4_pred_in_unit_interval (core : (Fin 3 → ℚ) → ℝ)
    (calib : Fin 3 → Fin 4 → ℚ) (p : Fin 3 → ℚ) :
    0 ≤ PIFu.queryPred core calib p ∧ PIFu.queryPred core calib p ≤ 1 := by
  unfold PIFu.queryPred
  have h0 := PIFu.sigmoid_pos (core (PIFu.projection calib p))
  have h1 := PIFu.sigmoid_le_one (core (PIFu.projection calib p))
  by_cases hbb : PIFu.in_bb (PIFu.projection calib p) <;>
    simp [hbb] <;> constructor <;> linarith

/-- C2 counterexample: with the constant-zero MLP core the four network
evaluations coincide, the finite-difference vector is zero, and the
stored normal is the zero vector — not a unit vector. -/
theorem C2_counterexample :
    PIFu.normSq
      (PIFu.calc_normal (fun _ => 0) (fun _ _ => 1) (fun _ => 0) (1 / 10)) ≠ 1 := by
  have hraw : PIFu.nmlRaw (fun _ => 0) (fun _ _ => 1) (fun _ => 0) (1 / 10) =
      fun _ => 0 := by
    funext i
    unfold PIFu.nmlRaw PIFu.predAt
    ring
  have hz : PIFu.normSq
      (PIFu.calc_normal (fun _ => 0) (fun _ _ => 1) (fun _ => 0) (1 / 10)) = 0 := by
    unfold PIFu.calc_normal
    rw [hraw]
    unfold PIFu.fnormalize PIFu.normSq
    norm_num
  rw [hz]
  norm_num

/-- C2 (amended): the method `calc_normal` stores the `F.normalize`d negated
forward-difference vector, and whenever that difference vector has norm
at least the `1e-8` epsilon the stored normal is a unit vector. -/
theorem C2_normal_unit (core : (Fin 3 → ℚ) → ℝ) (calib : Fin 3 → Fin 4 → ℚ)
    (p : Fin 3 → ℚ) (δ : ℚ)
    (h : PIFu.eps8 ^ 2 ≤ PIFu.normSq (PIFu.nmlRaw core calib p δ)) :
    PIFu.calc_normal core calib p δ =
      PIFu.fnormalize (PIFu.nmlRaw core calib p δ) PIFu.eps8 ∧
    PIFu.normSq (PIFu.calc_normal core calib p δ) = 1 := by
  refine ⟨rfl, ?_⟩
  unfold PIFu.calc_normal
  refine PIFu.normSq_fnormalize_of_le _ _ ?_ h
  unfold PIFu.eps8
  norm_num

/-- Witness for C2: a core reading off the first projected coordinate
gives a finite-difference vector of squared norm at least `1/36`, and the
stored normal is a unit vector. -/
theorem C2_witness :
    PIFu.eps8 ^ 2 ≤
      PIFu.normSq (PIFu.nmlRaw PIFu.coreW PIFu.calibW (fun _ => 0) 1) ∧
    PIFu.normSq (PIFu.calc_normal PIFu.coreW PIFu.calibW (fun _ => 0) 1) = 1 := by
  have hfin : ¬((3 : Fin 4) : ℕ) = 0 := by decide
  have hq0 : PIFu.projection PIFu.calibW (fun _ => 0) 0 = 0 := by
    simp [PIFu.projection, PIFu.calibW, hfin]
  have hqx : PIFu.projection PIFu.calibW (PIFu.pd (fun _ => 0) 0 1) 0 = 1 := by
    simp [PIFu.projection, PIFu.calibW, PIFu.pd, hfin]
  have hqy : PIFu.projection PIFu.calibW (PIFu.pd (fun _ => 0) 1 1) 0 = 0 := by
    simp [PIFu.projection, PIFu.calibW, PIFu.pd, hfin]
  have hqz : PIFu.projection PIFu.calibW (PIFu.pd (fun _ => 0) 2 1) 0 = 0 := by
    simp [PIFu.projection, PIFu.calibW, PIFu.pd, hfin]
  have h0 : PIFu.nmlRaw PIFu.coreW PIFu.calibW (fun _ => 0) 1 0 =
      -(PIFu.sigmoid 1 - PIFu.sigmoid 0) := by
    show -(PIFu.sigmoid
        ((PIFu.projection PIFu.calibW (PIFu.pd (fun _ => 0) 0 1) 0 : ℚ) : ℝ) -
      PIFu.sigmoid ((PIFu.projection PIFu.calibW (fun _ => 0) 0 : ℚ) : ℝ)) = _
    rw [hqx, hq0]
    norm_num
  have h1 : PIFu.nmlRaw PIFu.coreW PIFu.calibW (fun _ => 0) 1 1 = 0 := by
    show -(PIFu.sigmoid
        ((PIFu.projection PIFu.calibW (PIFu.pd (fun _ => 0) 1 1) 0 : ℚ) : ℝ) -
      PIFu.sigmoid ((PIFu.projection PIFu.calibW (fun _ => 0) 0 : ℚ) : ℝ)) = _
    rw [hqy, hq0]
    ring
  have h2 : PIFu.nmlRaw PIFu.coreW PIFu.calibW (fun _ => 0) 1 2 = 0 := by
    show -(PIFu.sigmoid
        ((PIFu.projection PIFu.calibW (PIFu.pd (fun _ => 0) 2 1) 0 : ℚ) : ℝ) -
      PIFu.sigmoid ((PIFu.projection PIFu.calibW (fun _ => 0) 0 : ℚ) : ℝ)) = _
    rw [hqz, hq0]
    ring
  have hns : PIFu.normSq (PIFu.nmlRaw PIFu.coreW PIFu.calibW (fun _ => 0) 1) =
      (PIFu.sigmoid 1 - PIFu.sigmoid 0) ^ 2 := by
    unfold PIFu.normSq
    rw [h0, h1, h2]
    ring
  have hgap : (1 : ℝ) / 6 ≤ PIFu.sigmoid 1 - PIFu.sigmoid 0 := by
    rw [PIFu.sigmoid_zero]
    linarith [PIFu.sigmoid_one_ge]
  have heps : PIFu.eps8 ^ 2 ≤
      PIFu.normSq (PIFu.nmlRaw PIFu.coreW PIFu.calibW (fun _ => 0) 1) := by
    rw [hns]
    unfold PIFu.eps8
    nlinarith [hgap]
  exact ⟨heps, (C2_normal_unit PIFu.coreW PIFu.calibW (fun _ => 0) 1 heps).2⟩

/-- C3 counterexample: on the field `0.6, 0.4, 0.6` with threshold `0.5`
and two grid edges, octree sampling interpolates the skipped middle
sample from its uniformly-inside coarse neighbours and produces no
crossing, while dense evaluation of every voxel produces two
crossings. -/
theorem C3_counterexample :
    ReconApp.reconstruction (fun i => if i = 1 then 2 / 5 else 3 / 5)
        (1 / 2) 2 true ≠
      ReconApp.reconstruction (fun i => if i = 1 then 2 / 5 else 3 / 5)
        (1 / 2) 2 false := by
  have htrue :
      ReconApp.reconstruction (fun i => if i = 1 then 2 / 5 else 3 / 5)
        (1 / 2) 2 true = [] := by
    norm_num [ReconApp.reconstruction, ReconApp.marchCrossings,
      ReconApp.octreeEval, ReconApp.inside, List.range_succ]
  have hfalse :
      ReconApp.reconstruction (fun i => if i = 1 then 2 / 5 else 3 / 5)
        (1 / 2) 2 false = [0, 1] := by
    norm_num [ReconApp.reconstruction, ReconApp.marchCrossings,
      ReconApp.octreeEval, ReconApp.inside, List.range_succ]
  rw [htrue, hfalse]
  simp

/-- C3 (amended): octree acceleration is result-preserving exactly when
the field has no sub-grid detail — whenever a skipped sample's coarse
neighbours classify alike against the threshold, the skipped sample
classifies like them.  Under that hypothesis octree and dense
reconstruction produce the same mesh. -/
theorem C3_octree_equiv (f : ℕ → ℚ) (t : ℚ) (n : ℕ)
    (h : ReconApp.noSubgrid f t n = true) :
    ReconApp.reconstruction f t n true =
      ReconApp.reconstruction f t n false := by
  have h' : ∀ i ≤ n, i % 2 = 1 →
      ReconApp.inside t (f (i - 1)) = ReconApp.inside t (f (i + 1)) →
      ReconApp.inside t (f i) = ReconApp.inside t (f (i - 1)) := by
    intro i hi ho hu
    have hm := List.all_eq_true.mp h i (List.mem_range.mpr (by omega))
    rw [decide_eq_true_eq] at hm
    exact hm ⟨ho, hu⟩
  have hcl : ∀ i ≤ n, ReconApp.inside t (ReconApp.octreeEval f t i) =
      ReconApp.inside t (f i) := by
    intro i hi
    unfold ReconApp.octreeEval
    by_cases he : i % 2 = 0
    · rw [if_pos he]
    · rw [if_neg he]
      have ho : i % 2 = 1 := (Nat.mod_two_eq_zero_or_one i).resolve_left he
      by_cases hu : ReconApp.inside t (f (i - 1)) =
          ReconApp.inside t (f (i + 1))
      · rw [if_pos hu, ReconApp.inside_avg t _ _ hu, ← h' i hi ho hu]
      · rw [if_neg hu]
  have h1 : ReconApp.reconstruction f t n true =
      ReconApp.marchCrossings (ReconApp.octreeEval f t) t n := by
    unfold ReconApp.reconstruction
    norm_num
  have h2 : ReconApp.reconstruction f t n false =
      ReconApp.marchCrossings f t n := by
    unfold ReconApp.reconstruction
    norm_num
  rw [h1, h2]
  unfold ReconApp.marchCrossings
  apply List.filter_congr
  intro i hi
  rw [List.mem_range] at hi
  rw [hcl i (Nat.le_of_lt hi), hcl (i + 1) hi]

/-- Witness for C3: the constant field `0.6` has no sub-grid detail, and
octree and dense reconstruction agree on it. -/
theorem C3_witness :
    ReconApp.noSubgrid (fun _ => 3 / 5) (1 / 2) 2 = true ∧
    ReconApp.reconstruction (fun _ => 3 / 5) (1 / 2) 2 true =
      ReconApp.reconstruction (fun _ => 3 / 5) (1 / 2) 2 false := by
  have h : ReconApp.noSubgrid (fun _ => 3 / 5) (1 / 2) 2 = true := by
    unfold ReconApp.noSubgrid
    simp
  exact ⟨h, C3_octree_equiv (fun _ => 3 / 5) (1 / 2) 2 h⟩

/-- C5 at the failing input: with 5 vertices the loop runs one chunk with
`left = 0, right = -1`, which Python-slices to `color[0:4]`; vertices 0-3
are coloured but vertex 4 keeps its zero initialization. -/
theorem C5_last_vertex_uncolored :
    ReconApp.colorCovered 5 4 = false ∧
      ReconApp.colorCovered 5 3 = true ∧
      ReconApp.colorCovered 5 0 = true := by
  decide

/-- C6: the function `gen_mesh` hands the writer all vertices, all faces and one
colour per vertex, and every colour component — a `calc_normal` output
mapped by `n * 0.5 + 0.5`, or `np.zeros` where no chunk writes — lies in
`[0, 1]`. -/
theorem C6_serialization_colors (core : (Fin 3 → ℚ) → ℝ)
    (calib : Fin 3 → Fin 4 → ℚ) (δ : ℚ) (verts : List (Fin 3 → ℚ))
    (faces : List (Fin 3 → ℕ)) (vf : ℕ → Fin 3 → ℚ) (n j : ℕ) (i : Fin 3) :
    (ReconApp.gen_mesh_save core calib δ verts faces).verts = verts ∧
    (ReconApp.gen_mesh_save core calib δ verts faces).faces = faces ∧
    (ReconApp.gen_mesh_save core calib δ verts faces).colors =
      ReconApp.genMeshColors core calib (fun j => verts.getD j (fun _ => 0))
        δ verts.length ∧
    (ReconApp.gen_mesh_save core calib δ verts faces).colors.length =
      verts.length ∧
    0 ≤ ReconApp.genMeshColor core calib vf δ n j i ∧
    ReconApp.genMeshColor core calib vf δ n j i ≤ 1 := by
  refine ⟨rfl, rfl, rfl, ?_, ?_⟩
  · unfold ReconApp.gen_mesh_save ReconApp.save_obj_mesh_with_color
      ReconApp.genMeshColors
    simp
  · unfold ReconApp.genMeshColor
    by_cases hc : ReconApp.colorCovered n j
    · rw [if_pos hc]
      have hb := PIFu.abs_fnormalize_le_one
        (PIFu.nmlRaw core calib (vf j) δ) PIFu.eps8
        (by unfold PIFu.eps8; norm_num) i
      unfold PIFu.calc_normal
      rw [abs_le] at hb
      constructor
      · linarith [hb.1]
      · linarith [hb.2]
    · rw [if_neg hc]
      norm_num

/-- C7: the function `gen_mesh` extracts the iso-surface at the default threshold
`0.5`, and a grid edge enters the mesh exactly when the occupancy
classification (`> 0.5` inside) changes across it. -/
theorem C7_default_threshold_half (f : ℕ → ℚ) (n : ℕ) (oct : Bool) :
    ReconApp.gen_mesh_recon f n oct =
      ReconApp.reconstruction f (1 / 2) n oct ∧
    ∀ i, i ∈ ReconApp.reconstruction f (1 / 2) n false ↔
      i < n ∧
        ReconApp.inside (1 / 2) (f i) ≠ ReconApp.inside (1 / 2) (f (i + 1)) := by
  refine ⟨rfl, ?_⟩
  intro i
  unfold ReconApp.reconstruction ReconApp.marchCrossings
  simp [List.mem_filter, List.mem_range]

/-- C8: with a checkpoint carrying saved options, `recon` keeps the
command-line `dataroot`, `resolution`, `results_path` and `loadSize` and
takes every other field from the checkpoint; without an `'opt'` key the
command-line options are unchanged. -/
theorem C8_checkpoint_option_override (cli ck : ReconApp.Options) :
    (ReconApp.recon_options cli ⟨some ck⟩).dataroot = cli.dataroot ∧
    (ReconApp.recon_options cli ⟨some ck⟩).resolution = cli.resolution ∧
    (ReconApp.recon_options cli ⟨some ck⟩).results_path = cli.results_path ∧
    (ReconApp.recon_options cli ⟨some ck⟩).loadSize = cli.loadSize ∧
    (ReconApp.recon_options cli ⟨some ck⟩).name = ck.name ∧
    (ReconApp.recon_options cli ⟨some ck⟩).netG = ck.netG ∧
    (ReconApp.recon_options cli ⟨some ck⟩).num_views = ck.num_views ∧
    ReconApp.recon_options cli ⟨none⟩ = cli :=
  ⟨rfl, rfl, rfl, rfl, rfl, rfl, rfl, rfl⟩

/-- C9: the function `gen_mesh` never lets an exception out of its `try` block — every
body outcome is turned into a normal return — and the reconstruction loop
therefore processes every test item. -/
theorem C9_gen_mesh_catches (body : ReconApp.PyResult Unit)
    (items : List (ReconApp.PyResult Unit)) :
    (ReconApp.gen_mesh_guard body).fst = ReconApp.PyResult.ok () ∧
    (ReconApp.recon_loop items).length = items.length ∧
    (ReconApp.recon_loop items).map Prod.fst =
      items.map fun _ => ReconApp.PyResult.ok () := by
  refine ⟨?_, ?_, ?_⟩
  · cases body <;> rfl
  · unfold ReconApp.recon_loop
    rw [List.length_map]
  · induction items with
    | nil => rfl
    | cons b bs ih =>
      have hh : (ReconApp.gen_mesh_guard b).fst = ReconApp.PyResult.ok () := by
        cases b <;> rfl
      show (ReconApp.gen_mesh_guard b).fst ::
          (ReconApp.recon_loop bs).map Prod.fst =
        ReconApp.PyResult.ok () :: (bs.map fun _ => ReconApp.PyResult.ok ())
      rw [hh, ih]

/-- C10: every dataset subscript performed by the test loop is in range:
the clamped bounds and the early `break` keep every accessed index `i`
within `0 ≤ i < len(test_dataset)`. -/
theorem C10_dataset_access_in_range (s e : ℤ) (len : ℕ) (i : ℕ)
    (h : i ∈ ReconApp.accessed_ids s e len) :
    i < len ∧ (0 : ℤ) ≤ (i : ℤ) := by
  refine ⟨?_, by positivity⟩
  unfold ReconApp.accessed_ids at h
  have hp := List.mem_takeWhile_imp h
  simpa using hp

/-- Witness for C10: with the negative start sentinel, `end_id = 7` and a
3-item dataset, index 2 is accessed and is in range. -/
theorem C10_witness :
    2 ∈ ReconApp.accessed_ids (-1) 7 3 ∧ 2 < 3 := by
  have hm : 2 ∈ ReconApp.accessed_ids (-1) 7 3 := by decide
  exact ⟨hm, (C10_dataset_access_in_range (-1) 7 3 2 hm).1⟩
